import Mathlib

/-
Verification development for a client-side image gallery (single React
component, src/src/App.tsx).  The component's data-flow core is embedded
shallowly: the in-memory record list, batch ingestion of files, deletion,
the search filter, persistence of the list through a JSON slot, and the
theme flag.  Asynchronous file reads are modelled by supplying each file
with the outcome of its read (`Except Unit String`); the ambient values
the code draws at ingestion time (generated id, ISO timestamp) are
supplied as oracle fields of the file.  Case mapping is modelled on
ASCII via `Char.toLower`, matching the data the component handles.
-/

/-- One gallery entry, mirroring the `ImageData` interface of App.tsx:
`id`, `name`, `src` (data URL), `size` (bytes), `uploadDate` (ISO text). -/
structure ImageData where
  id : String
  name : String
  src : String
  size : Nat
  uploadDate : String
deriving DecidableEq, Repr

/-- Component state relevant to the claims: the image list, the
`uploading` flag, and the value of the hidden file input element. -/
structure AppState where
  images : List ImageData
  uploading : Bool
  inputValue : String
deriving DecidableEq, Repr

/-- A file presented to the upload handler, together with the outcome of
its asynchronous `FileReader` read and the ambient values the handler
draws when it builds a record (generated id, `new Date().toISOString()`). -/
structure UploadFile where
  name : String
  fileType : String
  size : Nat
  readResult : Except Unit String
  genId : String
  date : String
deriving Repr

/-- Boolean test that `p` begins the list `s` (character-wise). -/
def leadsWith : List Char → List Char → Bool
  | [], _ => true
  | _ :: _, [] => false
  | p :: ps, c :: cs => p == c && leadsWith ps cs

/-- Boolean substring containment of `pat` in `s`, the embedding of
JavaScript `String.prototype.includes`. -/
def containsSub (pat : List Char) : List Char → Bool
  | [] => leadsWith pat []
  | c :: cs => leadsWith pat (c :: cs) || containsSub pat cs

/-- Characters of `s` lower-cased, the embedding of `toLowerCase()`. -/
def toLowerList (s : String) : List Char :=
  s.toList.map Char.toLower

/-- `file.type.startsWith('image/')`: the content type indicates an image. -/
def isImageType (t : String) : Bool :=
  leadsWith "image/".toList t.toList

/-- The embedding of `file.name.replace(/\.[^/.]+$/, "")`: drop the final
dot together with the non-empty run of characters after it, provided that
run contains neither a dot nor a slash and the name ends with it;
otherwise the name is unchanged. -/
def stripExt (s : String) : String :=
  let r := s.toList.reverse
  let suf := r.takeWhile (fun c => (c != '.') && (c != '/'))
  match r.drop suf.length with
  | '.' :: rest => if suf.isEmpty then s else String.mk rest.reverse
  | _ => s

/-- The record built for one accepted file whose read produced `b64`,
mirroring the `imageData` object literal of `handleFileUpload`. -/
def buildRecord (f : UploadFile) (b64 : String) : ImageData :=
  { id := f.genId
    name := stripExt f.name
    src := b64
    size := f.size
    uploadDate := f.date }

/-- The value carried by a successful read, defaulting if it failed. -/
def okD : Except Unit String → String
  | .ok s => s
  | .error _ => ""

/-- The `for`-loop body of `handleFileUpload`: walk the batch in order,
skip non-image files, await each image file's read, collect records; the
first failed read escapes the loop (the `try` block aborts). -/
def processFiles : List UploadFile → Except Unit (List ImageData)
  | [] => .ok []
  | f :: fs =>
    if isImageType f.fileType then
      match f.readResult with
      | .error e => .error e
      | .ok b64 =>
        match processFiles fs with
        | .error e => .error e
        | .ok rest => .ok (buildRecord f b64 :: rest)
    else processFiles fs

/-- The embedding of `handleFileUpload`: a null or empty file list
returns immediately; otherwise the batch is processed and, on success,
appended to the list in one update; the `finally` block clears the
uploading flag and resets the file input in both outcomes. -/
def handleFileUpload (s : AppState) (files : Option (List UploadFile)) : AppState :=
  match files with
  | none => s
  | some fs =>
    if fs.isEmpty then s
    else
      match processFiles fs with
      | .ok newImages =>
        { images := s.images ++ newImages, uploading := false, inputValue := "" }
      | .error _ =>
        { s with uploading := false, inputValue := "" }

/-- The embedding of `deleteImage`: keep every record whose id differs. -/
def deleteImage (images : List ImageData) (imageId : String) : List ImageData :=
  images.filter (fun img => img.id != imageId)

/-- The embedding of `filteredImages`: records whose lower-cased name
contains the lower-cased search term. -/
def filteredImages (images : List ImageData) (searchTerm : String) : List ImageData :=
  images.filter (fun img => containsSub (toLowerList searchTerm) (toLowerList img.name))

/-- JSON values, the codomain of `JSON.parse` on well-formed input; the
only numbers this application stores are non-negative integers. -/
inductive Json where
  | null : Json
  | bool (b : Bool) : Json
  | num (n : Nat) : Json
  | str (s : String) : Json
  | arr (l : List Json) : Json
  | obj (l : List (String × Json)) : Json

/-- `JSON.stringify` on one record: the object with the five fields in
declaration order. -/
def encodeImage (img : ImageData) : Json :=
  .obj [("id", .str img.id), ("name", .str img.name), ("src", .str img.src),
        ("size", .num img.size), ("uploadDate", .str img.uploadDate)]

/-- `JSON.stringify` on the whole collection: the array of its records. -/
def encodeImages (l : List ImageData) : Json :=
  .arr (l.map encodeImage)

/-- Reading one record back from its JSON shape; any other shape fails. -/
def decodeImage : Json → Option ImageData
  | .obj [("id", .str i), ("name", .str n), ("src", .str s),
          ("size", .num z), ("uploadDate", .str d)] =>
    some { id := i, name := n, src := s, size := z, uploadDate := d }
  | _ => none

/-- Reading a list of records element by element; any failure fails all. -/
def decodeImageList : List Json → Option (List ImageData)
  | [] => some []
  | j :: js =>
    match decodeImage j, decodeImageList js with
    | some img, some rest => some (img :: rest)
    | _, _ => none

/-- Reading the whole collection from a JSON value. -/
def decodeImages : Json → Option (List ImageData)
  | .arr l => decodeImageList l
  | _ => none

/-- What the `gallery-images` storage slot can hold at startup: nothing
(`getItem` returned null or empty), a string `JSON.parse` rejects (the
`catch` branch), or a string that parses to a JSON value. -/
inductive StoredValue where
  | absent : StoredValue
  | corrupt : StoredValue
  | json (j : Json) : StoredValue

/-- The embedding of the load effect: absent and corrupt slots leave the
initial empty list in place; a parsed value yields the collection it
describes (the source installs the parsed value unchecked, so only
well-shaped values correspond to collections; an ill-shaped value is
read as no data). -/
def loadImages : StoredValue → List ImageData
  | .absent => []
  | .corrupt => []
  | .json j => (decodeImages j).getD []

/-- The embedding of the save effect: the slot now holds the serialized
collection. -/
def saveImages (l : List ImageData) : StoredValue :=
  .json (encodeImages l)

/-- The embedding of the theme-loading effect: dark exactly when the
stored value is the string `dark`; the state otherwise keeps its
default `false`. -/
def initialDarkMode (saved : Option String) : Bool :=
  saved == some "dark"

/-- Events observable during one run of `handleFileUpload`, used to
state when the uploading flag is set relative to the reads. -/
inductive UploadEvent where
  | uploadStart : UploadEvent
  | fileRead (name : String) : UploadEvent
  | commitBatch (n : Nat) : UploadEvent
  | uploadEnd : UploadEvent
  | inputReset : UploadEvent
deriving DecidableEq, Repr

/-- The reads the loop performs, in order: one per image file, stopping
after a failed read (the loop is escaped by the thrown error). -/
def readEvents : List UploadFile → List UploadEvent
  | [] => []
  | f :: fs =>
    if isImageType f.fileType then
      UploadEvent.fileRead f.name ::
        (match f.readResult with
         | .ok _ => readEvents fs
         | .error _ => [])
    else readEvents fs

/-- The event trace of one run of `handleFileUpload`: nothing for an
empty batch; otherwise the flag is raised, the reads happen, a
successful batch commits, and the `finally` block lowers the flag and
resets the input. -/
def uploadTrace (fs : List UploadFile) : List UploadEvent :=
  if fs.isEmpty then []
  else
    UploadEvent.uploadStart ::
      (readEvents fs ++
        (match processFiles fs with
         | .ok l => [UploadEvent.commitBatch l.length]
         | .error _ => []) ++
        [UploadEvent.uploadEnd, UploadEvent.inputReset])

/-- Sample records and files used by the witness theorems below. -/
def recA : ImageData :=
  { id := "a1", name := "photo", src := "data:image/png;base64,AA",
    size := 2048, uploadDate := "2026-01-01T00:00:00.000Z" }

def recB : ImageData :=
  { id := "b2", name := "beach sunset", src := "data:image/jpeg;base64,BB",
    size := 4096, uploadDate := "2026-01-02T00:00:00.000Z" }

def fileA : UploadFile :=
  { name := "photo.png", fileType := "image/png", size := 2048,
    readResult := .ok "data:image/png;base64,AA",
    genId := "a1", date := "2026-01-01T00:00:00.000Z" }

def fileB : UploadFile :=
  { name := "notes.txt", fileType := "text/plain", size := 5,
    readResult := .ok "data:text/plain;base64,CC",
    genId := "c3", date := "2026-01-03T00:00:00.000Z" }

def fileBad : UploadFile :=
  { name := "broken.png", fileType := "image/png", size := 9,
    readResult := .error (), genId := "d4", date := "2026-01-04T00:00:00.000Z" }

/-- When every image file's read succeeds, the loop returns exactly one
record per image file, in input order, built by `buildRecord`. -/
lemma processFiles_ok (fs : List UploadFile)
    (h : ∀ f ∈ fs, isImageType f.fileType = true → f.readResult.isOk = true) :
    processFiles fs =
      Except.ok ((fs.filter (fun f => isImageType f.fileType)).map
        (fun f => buildRecord f (okD f.readResult))) := by
  induction fs with
  | nil => rfl
  | cons f fs ih =>
    have hfs : ∀ g ∈ fs, isImageType g.fileType = true → g.readResult.isOk = true :=
      fun g hg => h g (List.mem_cons_of_mem _ hg)
    by_cases hi : isImageType f.fileType = true
    · have hok := h f (List.mem_cons_self _ _) hi
      cases hr : f.readResult with
      | error e => rw [hr] at hok; cases hok
      | ok b =>
        simp [processFiles, hi, hr, ih hfs, List.filter_cons, okD]
    · simp [processFiles, hi, ih hfs, List.filter_cons]

/-- If some image file's read fails, the loop escapes with the error. -/
lemma processFiles_error (fs : List UploadFile)
    (h : ∃ f ∈ fs, isImageType f.fileType = true ∧ f.readResult.isOk = false) :
    processFiles fs = Except.error () := by
  induction fs with
  | nil => simp at h
  | cons f fs ih =>
    obtain ⟨g, hg, hgi, hge⟩ := h
    rcases List.mem_cons.mp hg with rfl | hg2
    · cases hr : g.readResult with
      | error e => cases e; simp [processFiles, hgi, hr]
      | ok b => rw [hr] at hge; cases hge
    · by_cases hi : isImageType f.fileType = true
      · cases hr : f.readResult with
        | error e => cases e; simp [processFiles, hi, hr]
        | ok b => simp [processFiles, hi, hr, ih ⟨g, hg2, hgi, hge⟩]
      · simp [processFiles, hi, ih ⟨g, hg2, hgi, hge⟩]

/-- Claim C1: when every image file in the batch reads successfully, the
handler appends one record per image file to the collection, in the
batch's input order, each built from the file (name with the extension
stripped, original byte size); non-image files contribute nothing.  In
particular the collection grows by exactly the number of image files. -/
theorem ingest_appends_image_records (s : AppState) (fs : List UploadFile)
    (hread : ∀ f ∈ fs, isImageType f.fileType = true → f.readResult.isOk = true) :
    (handleFileUpload s (some fs)).images =
      s.images ++ (fs.filter (fun f => isImageType f.fileType)).map
        (fun f => buildRecord f (okD f.readResult)) ∧
    (handleFileUpload s (some fs)).images.length =
      s.images.length + (fs.filter (fun f => isImageType f.fileType)).length := by
  have h1 : (handleFileUpload s (some fs)).images =
      s.images ++ (fs.filter (fun f => isImageType f.fileType)).map
        (fun f => buildRecord f (okD f.readResult)) := by
    cases fs with
    | nil => simp [handleFileUpload]
    | cons f fs2 =>
      have hp := processFiles_ok (f :: fs2) hread
      simp [handleFileUpload, hp]
  exact ⟨h1, by rw [h1]; simp⟩

/-- Claim C1 witness: a batch of one image file and one text file yields
exactly the image's record appended. -/
theorem ingest_appends_image_records_witness :
    (∀ f ∈ [fileA, fileB], isImageType f.fileType = true → f.readResult.isOk = true) ∧
    ((handleFileUpload ⟨[recB], false, "x"⟩ (some [fileA, fileB])).images =
      [recB] ++ ([fileA, fileB].filter (fun f => isImageType f.fileType)).map
        (fun f => buildRecord f (okD f.readResult)) ∧
    (handleFileUpload ⟨[recB], false, "x"⟩ (some [fileA, fileB])).images.length =
      [recB].length + ([fileA, fileB].filter (fun f => isImageType f.fileType)).length) :=
  ⟨by decide, ingest_appends_image_records ⟨[recB], false, "x"⟩ [fileA, fileB] (by decide)⟩

/-- Claim C2: if any image file's read in the batch fails, nothing is
committed: the collection after the handler equals the collection
before, even when earlier files in the batch were read successfully. -/
theorem failed_batch_commits_nothing (s : AppState) (fs : List UploadFile)
    (h : ∃ f ∈ fs, isImageType f.fileType = true ∧ f.readResult.isOk = false) :
    (handleFileUpload s (some fs)).images = s.images := by
  cases fs with
  | nil => simp at h
  | cons f fs2 =>
    have hp := processFiles_error (f :: fs2) h
    simp [handleFileUpload, hp]

/-- Claim C2 witness: a batch whose second image file fails to read
commits nothing, although the first file read successfully. -/
theorem failed_batch_commits_nothing_witness :
    (∃ f ∈ [fileA, fileBad], isImageType f.fileType = true ∧ f.readResult.isOk = false) ∧
    (handleFileUpload ⟨[recB], false, "x"⟩ (some [fileA, fileBad])).images = [recB] :=
  ⟨by decide, failed_batch_commits_nothing ⟨[recB], false, "x"⟩ [fileA, fileBad] (by decide)⟩

/-- Claim C8: a null or empty file list is a complete no-op: the state,
including the uploading flag, the collection and the input value, is
returned unchanged. -/
theorem null_or_empty_upload_noop (s : AppState) :
    handleFileUpload s none = s ∧ handleFileUpload s (some []) = s :=
  ⟨rfl, rfl⟩

/-- Claim C10: the view filter returns a subsequence of the collection:
every returned record occurs in it, none is duplicated or invented, and
relative order is preserved. -/
theorem view_filter_sublist (c : List ImageData) (q : String) :
    (filteredImages c q).Sublist c :=
  List.filter_sublist c

/-- Claim C6: an absent or corrupt stored value loads as the empty
collection; `loadImages` is total, so no error reaches the caller. -/
theorem corrupt_or_absent_loads_empty :
    loadImages StoredValue.absent = [] ∧ loadImages StoredValue.corrupt = [] :=
  ⟨rfl, rfl⟩

/-- Claim C9: at startup the theme is dark exactly when the stored value
is the string `dark`; any other value leaves the default light state. -/
theorem theme_dark_iff_stored_dark (v : Option String) :
    initialDarkMode v = true ↔ v = some "dark" := by
  simp [initialDarkMode]

/-- Claim C9 witness: the stored string `dark` turns dark mode on. -/
theorem theme_dark_iff_stored_dark_witness :
    initialDarkMode (some "dark") = true ↔ some "dark" = some "dark" :=
  theme_dark_iff_stored_dark (some "dark")

/-- The empty pattern is contained in every list of characters. -/
lemma containsSub_nil (s : List Char) : containsSub [] s = true := by
  cases s <;> simp [containsSub, leadsWith]

/-- Claim C4: the view filter returns exactly the records whose name
contains the query case-insensitively; the empty query returns the full
collection unchanged in order; a query matching no record's name
returns the empty list. -/
theorem search_filter_spec (c : List ImageData) (q : String) :
    (∀ r, r ∈ filteredImages c q ↔
        r ∈ c ∧ containsSub (toLowerList q) (toLowerList r.name) = true) ∧
    filteredImages c "" = c ∧
    ((∀ r ∈ c, containsSub (toLowerList q) (toLowerList r.name) = false) →
      filteredImages c q = []) := by
  refine ⟨fun r => ?_, ?_, fun h => ?_⟩
  · simp [filteredImages, List.mem_filter]
  · have hq : toLowerList "" = [] := rfl
    simp only [filteredImages, hq]
    exact List.filter_eq_self.mpr (fun a _ => containsSub_nil _)
  · exact List.filter_eq_nil_iff.mpr (fun a ha => by simp [h a ha])

/-- Claim C4 witness: on a two-record collection, searching the mixed
case query selects the matching record only, the empty query is the
identity, and a query matching nothing yields the empty list. -/
theorem search_filter_spec_witness :
    (∀ r, r ∈ filteredImages [recA, recB] "PHO" ↔
        r ∈ [recA, recB] ∧
          containsSub (toLowerList "PHO") (toLowerList r.name) = true) ∧
    filteredImages [recA, recB] "" = [recA, recB] ∧
    ((∀ r ∈ [recA, recB],
        containsSub (toLowerList "PHO") (toLowerList r.name) = false) →
      filteredImages [recA, recB] "PHO" = []) :=
  search_filter_spec [recA, recB] "PHO"

/-- Decoding inverts encoding on one record. -/
lemma decode_encode_image (img : ImageData) :
    decodeImage (encodeImage img) = some img := by
  cases img; rfl

/-- Decoding inverts encoding on a list of records. -/
lemma decode_encode_list (l : List ImageData) :
    decodeImageList (l.map encodeImage) = some l := by
  induction l with
  | nil => rfl
  | cons x xs ih => simp [decodeImageList, decode_encode_image, ih]

/-- Claim C5: loading the stored value produced by saving a non-empty
collection reproduces the collection exactly, same records in the same
order. -/
theorem save_load_round_trip (l : List ImageData) (_h : l ≠ []) :
    loadImages (saveImages l) = l := by
  simp [loadImages, saveImages, encodeImages, decodeImages, decode_encode_list]

/-- Claim C5 witness: a concrete two-record collection survives the
save/load round trip unchanged. -/
theorem save_load_round_trip_witness :
    ([recA, recB] ≠ ([] : List ImageData)) ∧
      loadImages (saveImages [recA, recB]) = [recA, recB] :=
  ⟨by decide, save_load_round_trip [recA, recB] (by decide)⟩

/-- Claim C3: on a collection with pairwise distinct ids, deletion
removes exactly the record carrying the id, splitting the collection
around it and keeping both sides in order; when no record carries the
id the collection is returned unchanged; the result is always a
subsequence of the input, so survivors keep their relative order. -/
theorem delete_removes_single (c : List ImageData) (i : String)
    (h : (c.map (fun r => r.id)).Nodup) :
    (∀ r ∈ c, r.id = i →
      ∃ l1 l2, c = l1 ++ r :: l2 ∧ deleteImage c i = l1 ++ l2) ∧
    ((∀ r ∈ c, r.id ≠ i) → deleteImage c i = c) ∧
    (deleteImage c i).Sublist c := by
  refine ⟨?_, ?_, List.filter_sublist c⟩
  · intro r hr hri
    obtain ⟨l1, l2, rfl⟩ := List.append_of_mem hr
    refine ⟨l1, l2, rfl, ?_⟩
    rw [List.map_append, List.map_cons] at h
    obtain ⟨hn1, hn2, hdisj⟩ := List.nodup_append.mp h
    have h1 : ∀ a ∈ l1, a.id ≠ i := by
      intro a ha hai
      exact hdisj (List.mem_map_of_mem _ ha)
        (by rw [hai, ← hri]; exact List.mem_cons_self _ _)
    have h2 : ∀ a ∈ l2, a.id ≠ i := by
      intro a ha hai
      have : r.id ∉ l2.map (fun x => x.id) := (List.nodup_cons.mp hn2).1
      exact this (by rw [hri, ← hai]; exact List.mem_map_of_mem _ ha)
    have hf1 : l1.filter (fun img => img.id != i) = l1 :=
      List.filter_eq_self.mpr (fun a ha => by simpa using h1 a ha)
    have hf2 : l2.filter (fun img => img.id != i) = l2 :=
      List.filter_eq_self.mpr (fun a ha => by simpa using h2 a ha)
    simp [deleteImage, List.filter_append, List.filter_cons, hri, hf1, hf2]
  · intro hall
    exact List.filter_eq_self.mpr (fun a ha => by simpa using hall a ha)

/-- Claim C3 witness: deleting id `a1` from a two-record collection with
distinct ids keeps exactly the other record; deleting an unknown id is
settled through the same theorem at an absent id. -/
theorem delete_removes_single_witness :
    (([recA, recB].map (fun r => r.id)).Nodup) ∧
    ((∀ r ∈ [recA, recB], r.id = "a1" →
      ∃ l1 l2, [recA, recB] = l1 ++ r :: l2 ∧
        deleteImage [recA, recB] "a1" = l1 ++ l2) ∧
    ((∀ r ∈ [recA, recB], r.id ≠ "a1") → deleteImage [recA, recB] "a1" = [recA, recB]) ∧
    (deleteImage [recA, recB] "a1").Sublist [recA, recB]) :=
  ⟨by decide, delete_removes_single [recA, recB] "a1" (by decide)⟩

/-- Every event the read phase emits is a file read. -/
lemma readEvents_only_reads (fs : List UploadFile) :
    ∀ e ∈ readEvents fs, ∃ n, e = UploadEvent.fileRead n := by
  induction fs with
  | nil => intro e he; simp [readEvents] at he
  | cons f fs ih =>
    intro e he
    by_cases hi : isImageType f.fileType = true
    · cases hr : f.readResult with
      | ok b =>
        rw [readEvents, if_pos hi, hr] at he
        rcases List.mem_cons.mp he with rfl | he2
        · exact ⟨f.name, rfl⟩
        · exact ih e he2
      | error x =>
        rw [readEvents, if_pos hi, hr] at he
        rcases List.mem_cons.mp he with rfl | he2
        · exact ⟨f.name, rfl⟩
        · simp at he2
    · rw [readEvents, if_neg hi] at he
      exact ih e he

/-- Claim C7: on any non-empty batch, whether it succeeds or fails, the
handler ends with the uploading flag cleared and the file input reset;
the run's trace raises the flag first and lowers it last, and between
the two only file reads and the batch commit occur, so the flag is up
exactly while reads are outstanding. -/
theorem upload_flag_lifecycle (s : AppState) (fs : List UploadFile) (h : fs ≠ []) :
    (handleFileUpload s (some fs)).uploading = false ∧
    (handleFileUpload s (some fs)).inputValue = "" ∧
    ∃ mid, uploadTrace fs =
        UploadEvent.uploadStart ::
          (mid ++ [UploadEvent.uploadEnd, UploadEvent.inputReset]) ∧
      (∀ e ∈ mid,
        (∃ n, e = UploadEvent.fileRead n) ∨ ∃ k, e = UploadEvent.commitBatch k) := by
  cases fs with
  | nil => exact absurd rfl h
  | cons f fs2 =>
    refine ⟨?_, ?_, ?_⟩
    · cases hp : processFiles (f :: fs2) <;> simp [handleFileUpload, hp]
    · cases hp : processFiles (f :: fs2) <;> simp [handleFileUpload, hp]
    · refine ⟨readEvents (f :: fs2) ++
        (match processFiles (f :: fs2) with
         | .ok l => [UploadEvent.commitBatch l.length]
         | .error _ => []), ?_, ?_⟩
      · simp [uploadTrace, List.append_assoc]
      · intro e he
        rcases List.mem_append.mp he with h1 | h2
        · exact Or.inl (readEvents_only_reads _ e h1)
        · cases hp : processFiles (f :: fs2) with
          | ok l =>
            rw [hp] at h2
            rcases List.mem_cons.mp h2 with rfl | h3
            · exact Or.inr ⟨l.length, rfl⟩
            · simp at h3
          | error x =>
            rw [hp] at h2
            simp at h2

/-- Claim C7 witness: a singleton batch whose read fails still clears
the uploading flag, resets the input, and produces a trace whose
interior holds only the file read. -/
theorem upload_flag_lifecycle_witness :
    ([fileBad] ≠ ([] : List UploadFile)) ∧
    ((handleFileUpload ⟨[recB], false, "x"⟩ (some [fileBad])).uploading = false ∧
    (handleFileUpload ⟨[recB], false, "x"⟩ (some [fileBad])).inputValue = "" ∧
    ∃ mid, uploadTrace [fileBad] =
        UploadEvent.uploadStart ::
          (mid ++ [UploadEvent.uploadEnd, UploadEvent.inputReset]) ∧
      (∀ e ∈ mid,
        (∃ n, e = UploadEvent.fileRead n) ∨ ∃ k, e = UploadEvent.commitBatch k)) :=
  ⟨List.cons_ne_nil _ _,
    upload_flag_lifecycle ⟨[recB], false, "x"⟩ [fileBad] (List.cons_ne_nil _ _)⟩
